import Mathlib

/-!
# Verification of the flow-log analyzer (`log_analyzer.py`)

Shallow embedding of the core pipeline:

* `protocol_map` / `resolve` — the static protocol-code table and the
  `protocol_map.get(code, "unknown")` lookup (source lines 9-21, 77).
* `load_lookup_table` — CSV lookup-table loader (source lines 23-45).
  A file is modelled as `Option (List (List String))`: `none` is a file
  that cannot be opened (Python `FileNotFoundError`), `some rows` are the
  CSV rows.  The source catches *every* exception and still returns the
  dictionary built so far; the embedding therefore returns a plain table,
  with `loadRows` exposing the internally-raised error that the wrapper
  swallows.
* `parse_flow_logs` — the log parser (source lines 47-90).  A log file is
  `Option (List String)` (`none` = unopenable); each line is split on
  whitespace runs by `splitWs`, the model of Python `str.split()`.
  `FileNotFoundError` is caught without re-raise, so the parser returns
  the (empty) aggregates normally in that case; every other exception is
  re-raised, modelled by `Except ParseError`.
* `save_results` — the report writer (source lines 92-130), producing the
  list of CSV rows it writes.

Python `dict` / `defaultdict` preserve insertion order, so aggregates and
the lookup table are association lists: `bump` models `d[k] += 1` on a
`defaultdict(int)`, `insertKV` models `d[k] = v`, `lookupKV` models
`d.get(k)`.
-/

/-- Association-list model of a Python `dict` from `α` to `β`
(insertion-ordered, keys unique). -/
abbrev PyDict (α β : Type) := List (α × β)

abbrev TagCounts := PyDict String Nat
abbrev PortProtocolCounts := PyDict (String × String) Nat
abbrev LookupTable := PyDict (String × String) String

/-- `d.get(k)`: value of the first (= only) binding of `k`, if any. -/
def lookupKV {α β : Type} [DecidableEq α] (k : α) : PyDict α β → Option β
  | [] => none
  | (k', v) :: rest => if k' = k then some v else lookupKV k rest

/-- `d[k] = v`: overwrite the binding of `k` in place, or append a new one
(Python dicts keep the original position of an overwritten key). -/
def insertKV {α β : Type} [DecidableEq α] (k : α) (v : β) : PyDict α β → PyDict α β
  | [] => [(k, v)]
  | (k', v') :: rest =>
      if k' = k then (k', v) :: rest else (k', v') :: insertKV k v rest

/-- `d[k] += 1` on a `defaultdict(int)`: increment the binding of `k`,
creating it (at the end, value 1) if absent. -/
def bump {α : Type} [DecidableEq α] (k : α) : PyDict α Nat → PyDict α Nat
  | [] => [(k, 1)]
  | (k', v) :: rest =>
      if k' = k then (k', v + 1) :: rest else (k', v) :: bump k rest

/-- Value of key `k` in a counts dict, `0` if absent (`d.get(k, 0)`). -/
def countOf {α : Type} [DecidableEq α] (k : α) : PyDict α Nat → Nat
  | [] => 0
  | (k', v) :: rest => if k' = k then v else countOf k rest

/-- Sum of all counts in a counts dict (`sum(d.values())`). -/
def sumCounts {α : Type} (m : PyDict α Nat) : Nat :=
  (m.map (·.2)).sum

/-- Model of Python `str.split()`: split on runs of whitespace, no empty
fields.  `cur` is the current field accumulated in reverse. -/
def splitWsAux : List Char → List Char → List String
  | [], [] => []
  | [], cur => [String.mk cur.reverse]
  | c :: cs, cur =>
      if c.isWhitespace then
        if cur = [] then splitWsAux cs []
        else String.mk cur.reverse :: splitWsAux cs []
      else splitWsAux cs (c :: cur)

/-- `line.split()` (source line 66). -/
def splitWs (s : String) : List String :=
  splitWsAux s.data []

/-- The static protocol table (source lines 9-21). -/
def protocol_map : PyDict String String :=
  [("1", "icmp"), ("2", "igmp"), ("6", "tcp"), ("17", "udp"),
   ("41", "ipv6-encapsulation"), ("47", "gre"), ("50", "esp"),
   ("51", "ah"), ("58", "icmpv6"), ("89", "ospf"), ("132", "sctp")]

/-- `protocol_map.get(protocol_code, "unknown")` (source line 77): the
Protocol Resolver of the spec. -/
def resolve (code : String) : String :=
  (lookupKV code protocol_map).getD "unknown"

/-- Exceptions that `parse_flow_logs` can propagate: the `ValueError`
raised on a bad version token (source line 71) and the `IndexError` from
subscripting a too-short field list (source lines 69, 73, 74). -/
inductive ParseError
  | unsupportedVersion (v : String)
  | indexError
  deriving DecidableEq, Repr

/-- One iteration of the parser loop (source lines 65-82) on an
already-split line, threading the two aggregates. -/
def processLine (lookup_table : LookupTable) (acc : TagCounts × PortProtocolCounts)
    (fields : List String) : Except ParseError (TagCounts × PortProtocolCounts) :=
  match fields[0]? with
  | none => .error .indexError
  | some v =>
    if v = "2" then
      match fields[5]? with
      | none => .error .indexError
      | some dstport =>
        match fields[7]? with
        | none => .error .indexError
        | some protocol_code =>
          let protocol := resolve protocol_code
          let tag := (lookupKV (dstport, protocol) lookup_table).getD "Untagged"
          .ok (bump tag acc.1, bump (dstport, protocol) acc.2)
    else .error (.unsupportedVersion v)

/-- The parser loop over the (already split) lines of the log file. -/
def processLines (lookup_table : LookupTable) (acc : TagCounts × PortProtocolCounts) :
    List (List String) → Except ParseError (TagCounts × PortProtocolCounts)
  | [] => .ok acc
  | l :: ls =>
    match processLine lookup_table acc l with
    | .error e => .error e
    | .ok acc' => processLines lookup_table acc' ls

/-- `parse_flow_logs` (source lines 47-90).  `none` models a file that
cannot be opened: the `FileNotFoundError` handler (lines 84-85) logs and
falls through to `return tag_counts, port_protocol_counts`, so the still
empty aggregates are returned normally.  Any other exception is logged
and re-raised (lines 86-88), modelled by `Except.error`. -/
def parse_flow_logs (log_file : Option (List String)) (lookup_table : LookupTable) :
    Except ParseError (TagCounts × PortProtocolCounts) :=
  match log_file with
  | none => .ok ([], [])
  | some lines => processLines lookup_table ([], []) (lines.map splitWs)

/-- Internal errors of the loader loop (source line 38): the `ValueError`
raised when a CSV row does not unpack into exactly
`dstport, protocol, tag`.  The wrapper catches and swallows it. -/
inductive LoadError
  | malformedRow
  deriving DecidableEq, Repr

/-- Model of Python `str.lower()` (source line 39). -/
def strLower (s : String) : String :=
  String.mk (s.data.map Char.toLower)

/-- The loader loop (source lines 38-39): insert each well-formed row,
stop with a (to-be-swallowed) error at the first row that does not unpack
into three fields, returning the table built so far. -/
def loadRows : List (List String) → LookupTable → LookupTable × Option LoadError
  | [], acc => (acc, none)
  | [dstport, protocol, tag] :: rest, acc =>
      loadRows rest (insertKV (dstport, strLower protocol) tag acc)
  | _ :: _, acc => (acc, some .malformedRow)

/-- `load_lookup_table` (source lines 23-45).  `none` models a file that
cannot be opened (`FileNotFoundError`, caught: empty dict returned);
`some []` makes `next(reader)` raise `StopIteration`, also caught (empty
dict returned); otherwise the header row is skipped and the loader loop
runs, any error it raises being caught and swallowed (lines 43-44), so
the dictionary built so far is returned in every case. -/
def load_lookup_table (csv_file : Option (List (List String))) : LookupTable :=
  match csv_file with
  | none => []
  | some [] => []
  | some (_header :: rows) => (loadRows rows []).1

/-- Stable insertion of a tag row into a count-descending list: the row
goes in front of the first row whose count is `≤` its own, so among equal
counts earlier input rows stay first — the order Python's stable
`sorted(..., key=lambda x: x[1], reverse=True)` produces. -/
def insertTagDesc (x : String × Nat) : List (String × Nat) → List (String × Nat)
  | [] => [x]
  | y :: ys => if y.2 ≤ x.2 then x :: y :: ys else y :: insertTagDesc x ys

/-- Stable sort of tag rows by count descending. -/
def sortTagsDesc : List (String × Nat) → List (String × Nat)
  | [] => []
  | x :: xs => insertTagDesc x (sortTagsDesc xs)

/-- `sorted_tags` (source lines 108-112): the non-`"Untagged"` entries of
`tag_counts`, sorted by count descending (stable). -/
def sorted_tags (tag_counts : TagCounts) : List (String × Nat) :=
  sortTagsDesc (tag_counts.filter (fun p => decide (p.1 ≠ "Untagged")))

/-- `untagged_count = tag_counts.get("Untagged", 0)` (source line 113). -/
def untagged_count (tag_counts : TagCounts) : Nat :=
  countOf "Untagged" tag_counts

/-- The rows of the tag block, as (tag, count) pairs: the sorted rows
(source lines 115-116) followed by the `"Untagged"` row when its count is
positive (source lines 118-120). -/
def tagBlockRows (tag_counts : TagCounts) : List (String × Nat) :=
  sorted_tags tag_counts ++
    (if 0 < untagged_count tag_counts
     then [("Untagged", untagged_count tag_counts)] else [])

/-- `save_results` (source lines 92-130): the CSV rows written to the
output file, in order. -/
def save_results (tag_counts : TagCounts) (port_protocol_counts : PortProtocolCounts) :
    List (List String) :=
  [["Tag Counts"], ["Tag", "Count"]]
    ++ (tagBlockRows tag_counts).map (fun p => [p.1, toString p.2])
    ++ [[], ["Port/Protocol Combination Counts"], ["Port", "Protocol", "Count"]]
    ++ port_protocol_counts.map (fun p => [p.1.1, p.1.2, toString p.2])

/-- The (dstport, protocol-name) key a line contributes, fields 5 and 7
(source lines 73-77); only meaningful when the line has both fields. -/
def lineKey (fields : List String) : String × String :=
  (fields[5]?.getD "", resolve (fields[7]?.getD ""))

/-- The tag a line contributes: lookup-table hit or `"Untagged"` (source
line 80). -/
def lineTag (lookup_table : LookupTable) (fields : List String) : String :=
  (lookupKV (lineKey fields) lookup_table).getD "Untagged"

/-- A line that keeps the parser loop going: version token `"2"` and at
least 8 whitespace-separated fields. -/
def validLine (fields : List String) : Prop :=
  fields[0]? = some "2" ∧ 8 ≤ fields.length

instance (fields : List String) : Decidable (validLine fields) := by
  unfold validLine; infer_instance

/-- The order of the tag block: count of the later row is `≤` count of
the earlier row. -/
def tagGE (a b : String × Nat) : Prop := b.2 ≤ a.2

/-- The (key, value) pair a CSV row contributes to the lookup table:
`some` exactly when the row unpacks into `dstport, protocol, tag`
(source lines 38-39). -/
def keyValOfRow : List String → Option ((String × String) × String)
  | [dstport, protocol, tag] => some ((dstport, strLower protocol), tag)
  | _ => none

example : resolve "6" = "tcp" := by decide
example : splitWs "2 ab  cd" = ["2", "ab", "cd"] := by decide
example : parse_flow_logs (some ["2 a b c d 80 s 6 x y z w A B"]) []
    = .ok ([("Untagged", 1)], [(("80", "tcp"), 1)]) := rfl

section DictLemmas

variable {α : Type} [DecidableEq α]

theorem countOf_bump_self (k : α) (m : PyDict α Nat) :
    countOf k (bump k m) = countOf k m + 1 := by
  induction m with
  | nil => simp [bump, countOf]
  | cons p rest ih =>
      obtain ⟨k', v⟩ := p
      by_cases h : k' = k
      · subst h; simp [bump, countOf]
      · simp [bump, countOf, h, ih]

theorem countOf_bump_ne {k k' : α} (h : k' ≠ k) (m : PyDict α Nat) :
    countOf k' (bump k m) = countOf k' m := by
  induction m with
  | nil => simp [bump, countOf, Ne.symm h]
  | cons p rest ih =>
      obtain ⟨a, v⟩ := p
      by_cases ha : a = k
      · subst ha
        simp [bump, countOf, Ne.symm h]
      · simp [bump, countOf, ha, ih]

theorem sumCounts_bump (k : α) (m : PyDict α Nat) :
    sumCounts (bump k m) = sumCounts m + 1 := by
  induction m with
  | nil => simp [bump, sumCounts]
  | cons p rest ih =>
      obtain ⟨a, v⟩ := p
      by_cases ha : a = k
      · subst ha; simp [bump, sumCounts]; omega
      · simp [bump, sumCounts, ha] at ih ⊢; omega

theorem lookupKV_insertKV_self {β : Type} (k : α) (v : β) (m : PyDict α β) :
    lookupKV k (insertKV k v m) = some v := by
  induction m with
  | nil => simp [insertKV, lookupKV]
  | cons p rest ih =>
      obtain ⟨a, w⟩ := p
      by_cases ha : a = k
      · subst ha; simp [insertKV, lookupKV]
      · simp [insertKV, lookupKV, ha, ih]

theorem lookupKV_insertKV_ne {β : Type} {k k' : α} (h : k' ≠ k) (v : β)
    (m : PyDict α β) : lookupKV k' (insertKV k v m) = lookupKV k' m := by
  induction m with
  | nil => simp [insertKV, lookupKV, Ne.symm h]
  | cons p rest ih =>
      obtain ⟨a, w⟩ := p
      by_cases ha : a = k
      · subst ha
        simp [insertKV, lookupKV, Ne.symm h]
      · by_cases ha' : a = k'
        · simp [insertKV, lookupKV, ha, ha', h]
        · simp [insertKV, lookupKV, ha, ha', ih]

end DictLemmas

section ParserLemmas

theorem processLine_valid (tbl : LookupTable) (acc : TagCounts × PortProtocolCounts)
    {fields : List String} (h : validLine fields) :
    processLine tbl acc fields
      = .ok (bump (lineTag tbl fields) acc.1, bump (lineKey fields) acc.2) := by
  obtain ⟨h0, h8⟩ := h
  have h5 : ∃ x, fields[5]? = some x := by
    cases hx : fields[5]? with
    | none => exact absurd (List.getElem?_eq_none_iff.mp hx) (by omega)
    | some x => exact ⟨x, rfl⟩
  have h7 : ∃ x, fields[7]? = some x := by
    cases hx : fields[7]? with
    | none => exact absurd (List.getElem?_eq_none_iff.mp hx) (by omega)
    | some x => exact ⟨x, rfl⟩
  obtain ⟨d, hd⟩ := h5
  obtain ⟨pc, hpc⟩ := h7
  simp [processLine, h0, hd, hpc, lineTag, lineKey]

theorem processLine_ok_inv {tbl : LookupTable} {acc acc' : TagCounts × PortProtocolCounts}
    {fields : List String} (h : processLine tbl acc fields = .ok acc') :
    acc' = (bump (lineTag tbl fields) acc.1, bump (lineKey fields) acc.2) := by
  cases h0 : fields[0]? with
  | none => simp [processLine, h0] at h
  | some v =>
      by_cases hv : v = "2"
      · cases h5 : fields[5]? with
        | none => simp [processLine, h0, h5, hv] at h
        | some d =>
            cases h7 : fields[7]? with
            | none => simp [processLine, h0, h5, h7, hv] at h
            | some pc =>
                simp only [processLine, h0, h5, h7, hv, if_pos,
                  Except.ok.injEq] at h
                rw [← h]
                simp [lineTag, lineKey, h5, h7]
      · simp [processLine, h0, hv] at h

theorem processLine_short (tbl : LookupTable) (acc : TagCounts × PortProtocolCounts)
    {fields : List String} (h : fields.length < 8) :
    ∃ e, processLine tbl acc fields = .error e := by
  cases h0 : fields[0]? with
  | none => exact ⟨.indexError, by simp [processLine, h0]⟩
  | some v =>
      by_cases hv : v = "2"
      · have h7 : fields[7]? = none := List.getElem?_eq_none (by omega)
        cases h5 : fields[5]? with
        | none => exact ⟨.indexError, by simp [processLine, h0, h5, hv]⟩
        | some d => exact ⟨.indexError, by simp [processLine, h0, h5, h7, hv]⟩
      · exact ⟨.unsupportedVersion v, by simp [processLine, h0, hv]⟩

theorem processLine_badVersion (tbl : LookupTable) (acc : TagCounts × PortProtocolCounts)
    {fields : List String} {v : String} (h0 : fields[0]? = some v)
    (hv : v ≠ "2") :
    processLine tbl acc fields = .error (.unsupportedVersion v) := by
  simp [processLine, h0, hv]

theorem processLines_of_mem_fail {tbl : LookupTable} {ls : List (List String)}
    {l : List String} (hl : l ∈ ls)
    (hf : ∀ acc, ∃ e, processLine tbl acc l = .error e)
    (acc : TagCounts × PortProtocolCounts) :
    ∃ e, processLines tbl acc ls = .error e := by
  induction ls generalizing acc with
  | nil => cases hl
  | cons a as ih =>
      cases hp : processLine tbl acc a with
      | error e => exact ⟨e, by simp [processLines, hp]⟩
      | ok mid =>
          rcases List.mem_cons.mp hl with rfl | hmem
          · obtain ⟨e, he⟩ := hf acc
            rw [hp] at he; cases he
          · obtain ⟨e, he⟩ := ih hmem mid
            exact ⟨e, by simp [processLines, hp, he]⟩

theorem processLines_valid (tbl : LookupTable) {ls : List (List String)}
    (h : ∀ l ∈ ls, validLine l) (acc : TagCounts × PortProtocolCounts) :
    ∃ acc', processLines tbl acc ls = .ok acc' := by
  induction ls generalizing acc with
  | nil => exact ⟨acc, rfl⟩
  | cons a as ih =>
      have ha := processLine_valid tbl acc (h a (List.mem_cons_self a as))
      obtain ⟨acc', hacc'⟩ := ih (fun l hl => h l (List.mem_cons_of_mem a hl))
        (bump (lineTag tbl a) acc.1, bump (lineKey a) acc.2)
      exact ⟨acc', by simp [processLines, ha, hacc']⟩

theorem processLines_append {tbl : LookupTable} {xs : List (List String)}
    {acc mid : TagCounts × PortProtocolCounts}
    (h : processLines tbl acc xs = .ok mid) (ys : List (List String)) :
    processLines tbl acc (xs ++ ys) = processLines tbl mid ys := by
  induction xs generalizing acc with
  | nil => simp [processLines] at h; subst h; rfl
  | cons a as ih =>
      cases hp : processLine tbl acc a with
      | error e => simp [processLines, hp] at h
      | ok acc1 =>
          simp only [processLines, hp] at h
          simpa [processLines, hp] using ih h

theorem processLines_counts {tbl : LookupTable} {ls : List (List String)}
    {acc acc' : TagCounts × PortProtocolCounts}
    (h : processLines tbl acc ls = .ok acc') :
    (∀ t, countOf t acc'.1
        = countOf t acc.1 + ls.countP (fun l => decide (lineTag tbl l = t)))
    ∧ (∀ k, countOf k acc'.2
        = countOf k acc.2 + ls.countP (fun l => decide (lineKey l = k)))
    ∧ sumCounts acc'.1 = sumCounts acc.1 + ls.length
    ∧ sumCounts acc'.2 = sumCounts acc.2 + ls.length := by
  induction ls generalizing acc with
  | nil =>
      simp [processLines] at h
      subst h; simp
  | cons a as ih =>
      cases hp : processLine tbl acc a with
      | error e => simp [processLines, hp] at h
      | ok mid =>
          simp only [processLines, hp] at h
          obtain ⟨ih1, ih2, ih3, ih4⟩ := ih h
          have hmid := processLine_ok_inv hp
          subst hmid
          refine ⟨fun t => ?_, fun k => ?_, ?_, ?_⟩
          · rw [ih1 t]
            by_cases ht : lineTag tbl a = t
            · subst ht
              simp [countOf_bump_self, List.countP_cons]
              omega
            · rw [countOf_bump_ne (fun hk => ht hk.symm)]
              simp [List.countP_cons, ht]
          · rw [ih2 k]
            by_cases hk : lineKey a = k
            · subst hk
              simp [countOf_bump_self, List.countP_cons]
              omega
            · rw [countOf_bump_ne (fun hx => hk hx.symm)]
              simp [List.countP_cons, hk]
          · rw [ih3]; simp [sumCounts_bump]; omega
          · rw [ih4]; simp [sumCounts_bump]; omega

end ParserLemmas

section SortLemmas

theorem insertTagDesc_perm (x : String × Nat) (l : List (String × Nat)) :
    (insertTagDesc x l).Perm (x :: l) := by
  induction l with
  | nil => exact List.Perm.refl _
  | cons y ys ih =>
      by_cases hc : y.2 ≤ x.2
      · simp [insertTagDesc, hc]
      · simp only [insertTagDesc, if_neg hc]
        exact (ih.cons y).trans (List.Perm.swap x y ys)

theorem sortTagsDesc_perm (l : List (String × Nat)) :
    (sortTagsDesc l).Perm l := by
  induction l with
  | nil => exact List.Perm.refl _
  | cons x xs ih =>
      exact (insertTagDesc_perm x (sortTagsDesc xs)).trans (ih.cons x)

theorem insertTagDesc_sorted (x : String × Nat) {l : List (String × Nat)}
    (h : List.Sorted tagGE l) : List.Sorted tagGE (insertTagDesc x l) := by
  induction l with
  | nil => simp [insertTagDesc, tagGE]
  | cons y ys ih =>
      rw [List.sorted_cons] at h
      obtain ⟨hy, hys⟩ := h
      by_cases hc : y.2 ≤ x.2
      · simp only [insertTagDesc, if_pos hc]
        rw [List.sorted_cons]
        refine ⟨fun b hb => ?_, List.sorted_cons.mpr ⟨hy, hys⟩⟩
        rcases List.mem_cons.mp hb with rfl | hb
        · exact hc
        · exact le_trans (hy b hb) hc
      · simp only [insertTagDesc, if_neg hc]
        rw [List.sorted_cons]
        refine ⟨fun b hb => ?_, ih hys⟩
        rcases List.mem_cons.mp ((insertTagDesc_perm x ys).mem_iff.mp hb) with
          rfl | hb
        · exact Nat.le_of_not_le hc
        · exact hy b hb

theorem sortTagsDesc_sorted (l : List (String × Nat)) :
    List.Sorted tagGE (sortTagsDesc l) := by
  induction l with
  | nil => simp [sortTagsDesc]
  | cons x xs ih => exact insertTagDesc_sorted x ih

theorem sorted_tags_sorted (tag_counts : TagCounts) :
    List.Sorted tagGE (sorted_tags tag_counts) :=
  sortTagsDesc_sorted _

theorem sorted_tags_perm (tag_counts : TagCounts) :
    (sorted_tags tag_counts).Perm
      (tag_counts.filter (fun p => decide (p.1 ≠ "Untagged"))) :=
  sortTagsDesc_perm _

theorem sorted_tags_no_untagged (tag_counts : TagCounts) :
    ∀ p ∈ sorted_tags tag_counts, p.1 ≠ "Untagged" := by
  intro p hp
  have := (sorted_tags_perm tag_counts).mem_iff.mp hp
  exact of_decide_eq_true (List.mem_filter.mp this).2

end SortLemmas

section LoaderLemmas

theorem loadRows_cons (r : List String) (rest : List (List String))
    (acc : LookupTable) :
    loadRows (r :: rest) acc
      = match keyValOfRow r with
        | some kv => loadRows rest (insertKV kv.1 kv.2 acc)
        | none => (acc, some .malformedRow) := by
  match r with
  | [] => rfl
  | [_] => rfl
  | [_, _] => rfl
  | [_, _, _] => rfl
  | _ :: _ :: _ :: _ :: _ => rfl

theorem loadRows_append {xs : List (List String)}
    (h : ∀ r ∈ xs, (keyValOfRow r).isSome) (ys : List (List String))
    (acc : LookupTable) :
    loadRows (xs ++ ys) acc = loadRows ys (loadRows xs acc).1 := by
  induction xs generalizing acc with
  | nil => rfl
  | cons r rs ih =>
      cases hr : keyValOfRow r with
      | none =>
          have := h r (List.mem_cons_self r rs)
          rw [hr] at this; cases this
      | some kv =>
          rw [List.cons_append, loadRows_cons, hr, loadRows_cons, hr]
          exact ih (fun r' hr' => h r' (List.mem_cons_of_mem r hr')) _

theorem loadRows_lookup_no_hit {k : String × String} {rows : List (List String)}
    (h : ∀ r ∈ rows, ∃ kv, keyValOfRow r = some kv ∧ kv.1 ≠ k)
    (acc : LookupTable) :
    lookupKV k (loadRows rows acc).1 = lookupKV k acc := by
  induction rows generalizing acc with
  | nil => rfl
  | cons r rs ih =>
      obtain ⟨kv, hkv, hne⟩ := h r (List.mem_cons_self r rs)
      rw [loadRows_cons, hkv]
      rw [ih (fun r' hr' => h r' (List.mem_cons_of_mem r hr'))]
      exact lookupKV_insertKV_ne (fun hk => hne hk.symm) kv.2 acc

end LoaderLemmas

/-- C4: protocol resolution is a pure total function over the fixed
static table: each of the eleven well-known codes maps to its lowercase
name, and every code outside the table (e.g. `"999"`) resolves to exactly
the literal `"unknown"`, never an error. -/
theorem resolve_protocol_spec :
    (∀ code, lookupKV code protocol_map = none → resolve code = "unknown")
    ∧ resolve "1" = "icmp" ∧ resolve "2" = "igmp" ∧ resolve "6" = "tcp"
    ∧ resolve "17" = "udp" ∧ resolve "41" = "ipv6-encapsulation"
    ∧ resolve "47" = "gre" ∧ resolve "50" = "esp" ∧ resolve "51" = "ah"
    ∧ resolve "58" = "icmpv6" ∧ resolve "89" = "ospf"
    ∧ resolve "132" = "sctp" ∧ resolve "999" = "unknown" := by
  refine ⟨fun code h => ?_, ?_⟩
  · simp [resolve, h]
  · repeat constructor

/-- Witness for C4 at the concrete out-of-table code `"999"`. -/
theorem resolve_protocol_spec_witness :
    lookupKV "999" protocol_map = none ∧ resolve "999" = "unknown" :=
  ⟨by decide, resolve_protocol_spec.1 "999" (by decide)⟩

/-- C8: every source containing a line that splits into fewer than 8
whitespace-separated fields makes `parse_flow_logs` abort: the exception
is propagated (re-raised) and no aggregates are returned. -/
theorem parse_short_line_aborts (tbl : LookupTable) (lines : List String)
    (l : String) (hmem : l ∈ lines) (hlen : (splitWs l).length < 8) :
    ∃ e, parse_flow_logs (some lines) tbl = .error e := by
  unfold parse_flow_logs
  exact processLines_of_mem_fail (List.mem_map_of_mem splitWs hmem)
    (fun acc => processLine_short tbl acc hlen) _

/-- Witness for C8: a 5-field line (even with a valid version token and
valid lines around it) makes the whole parse fail. -/
theorem parse_short_line_aborts_witness :
    "2 a b 80 6" ∈ ["2 a b c d 80 s 6 x y z w A B", "2 a b 80 6"]
    ∧ (splitWs "2 a b 80 6").length < 8
    ∧ ∃ e, parse_flow_logs
        (some ["2 a b c d 80 s 6 x y z w A B", "2 a b 80 6"]) []
        = .error e :=
  ⟨by decide, by decide,
   parse_short_line_aborts [] ["2 a b c d 80 s 6 x y z w A B", "2 a b 80 6"]
     "2 a b 80 6" (by decide) (by decide)⟩

/-- C1: if a line's first whitespace-separated field differs from the
literal `"2"`, the parse aborts with the `UnsupportedVersion`-style
`ValueError` and returns no aggregates, however many valid lines
preceded the offending line; moreover a bad-version line anywhere in the
source always leaves the parse in a failure, never a partial result. -/
theorem parse_unsupported_version_aborts (tbl : LookupTable)
    (pre : List String) (bad : String) (post : List String) (v : String)
    (hpre : ∀ l ∈ pre, validLine (splitWs l))
    (h0 : (splitWs bad)[0]? = some v) (hv : v ≠ "2") :
    parse_flow_logs (some (pre ++ bad :: post)) tbl
      = .error (.unsupportedVersion v)
    ∧ ∀ lines l, l ∈ lines → (splitWs l)[0]? = some v →
        ∃ e, parse_flow_logs (some lines) tbl = .error e := by
  constructor
  · simp only [parse_flow_logs]
    rw [List.map_append]
    obtain ⟨mid, hmid⟩ :=
      processLines_valid tbl
        (fun f hf => by
          obtain ⟨l, hl, rfl⟩ := List.mem_map.mp hf
          exact hpre l hl)
        (([], []) : TagCounts × PortProtocolCounts)
    rw [processLines_append hmid]
    simp [processLines, processLine_badVersion tbl mid h0 hv]
  · intro lines l hl h0'
    unfold parse_flow_logs
    exact processLines_of_mem_fail (List.mem_map_of_mem splitWs hl)
      (fun acc => ⟨_, processLine_badVersion tbl acc h0' hv⟩) _

/-- Witness for C1: one valid version-2 line followed by a version-3
line; the parse returns the `UnsupportedVersion` error for `"3"`. -/
theorem parse_unsupported_version_aborts_witness :
    parse_flow_logs
      (some ["2 a b c d 80 s 6 x y z w A B", "3 a b c d 80 s 6 x y z w A B"])
      []
      = .error (.unsupportedVersion "3") :=
  (parse_unsupported_version_aborts [] ["2 a b c d 80 s 6 x y z w A B"]
    "3 a b c d 80 s 6 x y z w A B" [] "3" (by decide) (by decide)
    (by decide)).1

/-- C2: when a parse succeeds, the sum of all `TagCounts` values and the
sum of all `PortProtocolCounts` values both equal the number of input
lines; each successfully processed record increments exactly one entry
of each aggregate by exactly 1 and leaves every other entry unchanged;
and every entry of each aggregate is monotonically non-decreasing from
any intermediate state of the pass to the final one. -/
theorem parse_aggregate_invariants (tbl : LookupTable) (lines : List String)
    (tc : TagCounts) (ppc : PortProtocolCounts)
    (h : parse_flow_logs (some lines) tbl = .ok (tc, ppc)) :
    (sumCounts tc = lines.length ∧ sumCounts ppc = lines.length)
    ∧ (∀ fields mid mid',
        processLine tbl mid fields = .ok mid' →
        (∃ t, countOf t mid'.1 = countOf t mid.1 + 1
            ∧ ∀ t', t' ≠ t → countOf t' mid'.1 = countOf t' mid.1)
        ∧ (∃ k, countOf k mid'.2 = countOf k mid.2 + 1
            ∧ ∀ k', k' ≠ k → countOf k' mid'.2 = countOf k' mid.2))
    ∧ (∀ pre post mid, lines = pre ++ post →
        processLines tbl ([], []) (pre.map splitWs) = .ok mid →
        (∀ t, countOf t mid.1 ≤ countOf t tc)
        ∧ (∀ k, countOf k mid.2 ≤ countOf k ppc)) := by
  simp only [parse_flow_logs] at h
  refine ⟨?_, ?_, ?_⟩
  · obtain ⟨-, -, h3, h4⟩ := processLines_counts h
    constructor
    · simpa [sumCounts] using h3
    · simpa [sumCounts] using h4
  · intro fields mid mid' hp
    have hinv := processLine_ok_inv hp
    subst hinv
    refine ⟨⟨lineTag tbl fields, ?_, fun t' ht' => ?_⟩,
            ⟨lineKey fields, ?_, fun k' hk' => ?_⟩⟩
    · exact countOf_bump_self _ _
    · exact countOf_bump_ne ht' _
    · exact countOf_bump_self _ _
    · exact countOf_bump_ne hk' _
  · intro pre post mid hsplit hmid
    subst hsplit
    rw [List.map_append, processLines_append hmid] at h
    obtain ⟨h1, h2, -, -⟩ := processLines_counts h
    exact ⟨fun t => by rw [h1 t]; omega, fun k => by rw [h2 k]; omega⟩

/-- Witness for C2 on a two-line log: both aggregate sums equal the
line count 2. -/
theorem parse_aggregate_invariants_witness :
    sumCounts [("Untagged", 2)] = 2
    ∧ sumCounts [(("80", "tcp"), 1), (("81", "tcp"), 1)] = 2 := by
  have H := parse_aggregate_invariants []
    ["2 a b c d 80 s 6 x y z w A B", "2 a b c d 81 s 6 x y z w A B"]
    [("Untagged", 2)] [(("80", "tcp"), 1), (("81", "tcp"), 1)] rfl
  exact ⟨H.1.1, H.1.2⟩

/-- C6 counterexample: on an unopenable source (`none`), the
`FileNotFoundError` handler does not re-raise, so `parse_flow_logs`
returns the empty aggregates as a normal successful result — it is never
an error, and is indistinguishable from successfully parsing an empty
log file.  This refutes the claim that the parse fails with a
distinguishable `NotFound` failure. -/
theorem parse_missing_file_counterexample :
    parse_flow_logs none [] = .ok ([], [])
    ∧ (∀ e, parse_flow_logs none [] ≠ .error e)
    ∧ parse_flow_logs none [] = parse_flow_logs (some []) [] :=
  ⟨rfl, fun e h => by simp [parse_flow_logs] at h, rfl⟩

/-- C6 amended: if the flow-log source cannot be opened,
`parse_flow_logs` logs the error and returns empty aggregates via a
normal successful return, indistinguishable from parsing an empty
source. -/
theorem parse_missing_file_returns_empty (tbl : LookupTable) :
    parse_flow_logs none tbl = .ok ([], [])
    ∧ parse_flow_logs none tbl = parse_flow_logs (some []) tbl :=
  ⟨rfl, rfl⟩

theorem tagBlockRows_untagged_last {tc : TagCounts} (h : 0 < untagged_count tc) :
    (tagBlockRows tc).getLast? = some ("Untagged", untagged_count tc) := by
  rw [tagBlockRows, if_pos h]
  exact List.getLast?_concat _

theorem tagBlockRows_untagged_once {tc : TagCounts} (h : 0 < untagged_count tc) :
    ((tagBlockRows tc).filter (fun p => decide (p.1 = "Untagged"))).length = 1 := by
  rw [tagBlockRows, if_pos h, List.filter_append]
  have h1 : (sorted_tags tc).filter (fun p => decide (p.1 = "Untagged")) = [] := by
    rw [List.filter_eq_nil_iff]
    intro p hp
    simpa using sorted_tags_no_untagged tc p hp
  rw [h1]
  simp

theorem tagBlockRows_no_untagged {tc : TagCounts} (h : untagged_count tc = 0) :
    ∀ p ∈ tagBlockRows tc, p.1 ≠ "Untagged" := by
  intro p hp
  rw [tagBlockRows, if_neg (by omega), List.append_nil] at hp
  exact sorted_tags_no_untagged tc p hp

/-- C3: `save_results` writes the tag block with header
`["Tag", "Count"]`; its rows are the non-`"Untagged"` entries of
`tag_counts`, sorted by count descending, and the `"Untagged"` row is
always the last row of the block regardless of its count, omitted
entirely when its count is 0. -/
theorem save_results_tag_block_spec (tc : TagCounts) (ppc : PortProtocolCounts) :
    (save_results tc ppc)[1]? = some ["Tag", "Count"]
    ∧ List.Sorted tagGE (sorted_tags tc)
    ∧ (sorted_tags tc).Perm (tc.filter (fun p => decide (p.1 ≠ "Untagged")))
    ∧ (∀ p ∈ sorted_tags tc, p.1 ≠ "Untagged")
    ∧ (0 < untagged_count tc →
        (tagBlockRows tc).getLast? = some ("Untagged", untagged_count tc))
    ∧ (untagged_count tc = 0 → ∀ p ∈ tagBlockRows tc, p.1 ≠ "Untagged") :=
  ⟨by simp [save_results], sorted_tags_sorted tc, sorted_tags_perm tc,
   sorted_tags_no_untagged tc, tagBlockRows_untagged_last,
   tagBlockRows_no_untagged⟩

/-- Witness for C3 on the spec example `{web: 5, ssh: 3, Untagged: 2}`:
the `"Untagged"` row is the last of the tag block. -/
theorem save_results_tag_block_spec_witness :
    0 < untagged_count [("web", 5), ("ssh", 3), ("Untagged", 2)]
    ∧ (tagBlockRows [("web", 5), ("ssh", 3), ("Untagged", 2)]).getLast?
        = some ("Untagged",
            untagged_count [("web", 5), ("ssh", 3), ("Untagged", 2)]) :=
  ⟨by decide,
   (save_results_tag_block_spec [("web", 5), ("ssh", 3), ("Untagged", 2)]
     []).2.2.2.2.1 (by decide)⟩

example : tagBlockRows [("ssh", 3), ("Untagged", 9), ("web", 5)]
    = [("web", 5), ("ssh", 3), ("Untagged", 9)] := by decide

/-- C9: a lookup-table entry whose tag is the literal `"Untagged"` is
accumulated into the same `TagCounts["Untagged"]` counter as records
with no lookup match — the final `"Untagged"` count is the number of
lines whose resolved tag is `"Untagged"` for either reason — and
`save_results` renders that combined count as the single final
`"Untagged"` row of the tag block. -/
theorem untagged_conflation (tbl : LookupTable) (lines : List String)
    (tc : TagCounts) (ppc : PortProtocolCounts) (key : String × String)
    (hmap : lookupKV key tbl = some "Untagged")
    (h : parse_flow_logs (some lines) tbl = .ok (tc, ppc)) :
    (∀ fields, lineKey fields = key → lineTag tbl fields = "Untagged")
    ∧ (∀ fields, lookupKV (lineKey fields) tbl = none →
        lineTag tbl fields = "Untagged")
    ∧ countOf "Untagged" tc
        = (lines.map splitWs).countP
            (fun l => decide (lineTag tbl l = "Untagged"))
    ∧ (0 < countOf "Untagged" tc →
        (tagBlockRows tc).getLast? = some ("Untagged", countOf "Untagged" tc)
        ∧ ((tagBlockRows tc).filter
            (fun p => decide (p.1 = "Untagged"))).length = 1) := by
  simp only [parse_flow_logs] at h
  refine ⟨fun fields hk => ?_, fun fields hk => ?_, ?_, fun hpos => ?_⟩
  · rw [lineTag, hk, hmap]; rfl
  · rw [lineTag, hk]; rfl
  · have := (processLines_counts h).1 "Untagged"
    simpa [countOf] using this
  · exact ⟨tagBlockRows_untagged_last hpos, tagBlockRows_untagged_once hpos⟩

/-- Witness for C9: with `("80", "tcp") ↦ "Untagged"` in the table, a
matching line and an unmatched line land in the same counter, and the
block renders one final `"Untagged"` row. -/
theorem untagged_conflation_witness :
    countOf "Untagged" [("Untagged", 2)]
      = (["2 a b c d 80 s 6 x y z w A B",
          "2 a b c d 81 s 6 x y z w A B"].map splitWs).countP
          (fun l => decide (lineTag [(("80", "tcp"), "Untagged")] l = "Untagged"))
    ∧ (tagBlockRows [("Untagged", 2)]).getLast?
        = some ("Untagged", countOf "Untagged" [("Untagged", 2)]) := by
  have H := untagged_conflation [(("80", "tcp"), "Untagged")]
    ["2 a b c d 80 s 6 x y z w A B", "2 a b c d 81 s 6 x y z w A B"]
    [("Untagged", 2)] [(("80", "tcp"), 1), (("81", "tcp"), 1)]
    ("80", "tcp") (by decide) rfl
  exact ⟨H.2.2.1, (H.2.2.2 (by decide)).1⟩

/-- C10: the parser has no upper field-count validation: any line whose
first token is `"2"` and that has at least 8 tokens is counted normally
(one increment in each aggregate), its result depends only on tokens 0,
5 and 7, and a source made of such lines parses successfully whether or
not the lines have the documented 14 tokens. -/
theorem parse_no_upper_field_count (tbl : LookupTable)
    (acc : TagCounts × PortProtocolCounts) (fields : List String)
    (h0 : fields[0]? = some "2") (h8 : 8 ≤ fields.length) :
    processLine tbl acc fields
      = .ok (bump (lineTag tbl fields) acc.1, bump (lineKey fields) acc.2)
    ∧ (∀ fields', fields'[0]? = some "2" → 8 ≤ fields'.length →
        fields'[5]? = fields[5]? → fields'[7]? = fields[7]? →
        processLine tbl acc fields' = processLine tbl acc fields)
    ∧ (∀ lines : List String,
        (∀ l ∈ lines, (splitWs l)[0]? = some "2" ∧ 8 ≤ (splitWs l).length) →
        ∃ res, parse_flow_logs (some lines) tbl = .ok res) := by
  refine ⟨processLine_valid tbl acc ⟨h0, h8⟩, fun fields' h0' h8' h5 h7 => ?_,
    fun lines hl => ?_⟩
  · rw [processLine_valid tbl acc ⟨h0, h8⟩, processLine_valid tbl acc ⟨h0', h8'⟩]
    simp [lineTag, lineKey, h5, h7]
  · simp only [parse_flow_logs]
    exact processLines_valid tbl
      (fun f hf => by
        obtain ⟨l, hlmem, rfl⟩ := List.mem_map.mp hf
        exact hl l hlmem) _

/-- Witness for C10: a 9-token line (not the documented 14) is counted
normally, with only tokens 0, 5 and 7 used. -/
theorem parse_no_upper_field_count_witness :
    processLine [] ([], []) ["2", "a", "b", "c", "d", "80", "s", "6", "extra"]
      = .ok ([("Untagged", 1)], [(("80", "tcp"), 1)]) :=
  (parse_no_upper_field_count [] ([], [])
    ["2", "a", "b", "c", "d", "80", "s", "6", "extra"] (by decide)
    (by decide)).1.trans rfl

/-- C5: loader round-trip.  The header row is skipped (its content never
matters); each data row maps its (port, lowercased protocol) key to its
tag, with later rows overwriting earlier ones on duplicate keys; loading
a table with row `(80, tcp, web)` then looking up `(80, tcp)` yields
`"web"`, while looking up the unlisted key `(81, tcp)` yields a miss. -/
theorem load_lookup_round_trip :
    (∀ h1 h2 rows, load_lookup_table (some (h1 :: rows))
        = load_lookup_table (some (h2 :: rows)))
    ∧ (∀ (header : List String) (pre : List (List String)) (d p t : String)
          (post : List (List String)),
        (∀ r ∈ pre, (keyValOfRow r).isSome) →
        (∀ r ∈ post, ∃ kv, keyValOfRow r = some kv ∧ kv.1 ≠ (d, strLower p)) →
        lookupKV (d, strLower p)
          (load_lookup_table (some (header :: (pre ++ [d, p, t] :: post))))
          = some t)
    ∧ lookupKV ("80", "tcp")
        (load_lookup_table (some [["destination_port", "protocol", "tag"],
          ["80", "tcp", "web"]])) = some "web"
    ∧ lookupKV ("81", "tcp")
        (load_lookup_table (some [["destination_port", "protocol", "tag"],
          ["80", "tcp", "web"]])) = none
    ∧ (∀ (header : List String) (d p t t' : String),
        lookupKV (d, strLower p)
          (load_lookup_table (some [header, [d, p, t], [d, p, t']]))
          = some t') := by
  refine ⟨fun h1 h2 rows => rfl, ?_, by decide, by decide, ?_⟩
  · intro header pre d p t post hpre hpost
    show lookupKV (d, strLower p)
      (loadRows (pre ++ [d, p, t] :: post) []).1 = some t
    rw [loadRows_append hpre, loadRows_cons]
    show lookupKV (d, strLower p)
      (loadRows post (insertKV (d, strLower p) t _)).1 = some t
    rw [loadRows_lookup_no_hit hpost]
    exact lookupKV_insertKV_self _ _ _
  · intro header d p t t'
    show lookupKV (d, strLower p)
      (loadRows [[d, p, t], [d, p, t']] []).1 = some t'
    rw [loadRows_cons]
    show lookupKV (d, strLower p)
      (loadRows [[d, p, t']] (insertKV (d, strLower p) t [])).1 = some t'
    rw [loadRows_cons]
    exact lookupKV_insertKV_self _ _ _

/-- Witness for C5: with a well-formed row before and after it, the row
`(80, TCP, web)` is found under the lowercased key `(80, tcp)`. -/
theorem load_lookup_round_trip_witness :
    lookupKV ("80", strLower "tcp")
      (load_lookup_table (some [["destination_port", "protocol", "tag"],
        ["25", "tcp", "email"], ["80", "tcp", "web"], ["99", "udp", "dns"]]))
      = some "web" :=
  load_lookup_round_trip.2.1 ["destination_port", "protocol", "tag"]
    [["25", "tcp", "email"]] "80" "tcp" "web" [["99", "udp", "dns"]]
    (by decide)
    (by
      intro r hr
      rw [List.mem_singleton] at hr
      subst hr
      exact ⟨(("99", strLower "udp"), "dns"), rfl, by decide⟩)

/-- C7 counterexample: a source whose data row `["81", "tcp"]` has only
2 fields does not make `load_lookup_table` fail — every exception is
caught and swallowed (source lines 43-44), so the call returns a plain
mapping, identical to the one loaded from the clean source without that
row, even though the loader loop did raise internally
(`loadRows ... = some .malformedRow`). -/
theorem load_malformed_counterexample :
    load_lookup_table (some [["destination_port", "protocol", "tag"],
        ["80", "tcp", "web"], ["81", "tcp"]])
      = load_lookup_table (some [["destination_port", "protocol", "tag"],
        ["80", "tcp", "web"]])
    ∧ load_lookup_table (some [["destination_port", "protocol", "tag"],
        ["80", "tcp", "web"], ["81", "tcp"]])
      = [(("80", "tcp"), "web")]
    ∧ (loadRows [["80", "tcp", "web"], ["81", "tcp"]] []).2
      = some .malformedRow := by
  refine ⟨rfl, by decide, rfl⟩

/-- C7 amended: when some data row cannot be unpacked into the expected
3-field shape, `load_lookup_table` does not fail: the internally raised
error is logged and swallowed, the loader stops at that row, and the
partial mapping built from the rows before it is returned as a normal
result (rows after the malformed one are ignored). -/
theorem load_malformed_swallowed (header : List String)
    (pre : List (List String)) (bad : List String) (rest : List (List String))
    (hpre : ∀ r ∈ pre, (keyValOfRow r).isSome)
    (hbad : keyValOfRow bad = none) :
    load_lookup_table (some (header :: (pre ++ bad :: rest)))
      = load_lookup_table (some (header :: pre))
    ∧ (loadRows (pre ++ bad :: rest) []).2 = some .malformedRow := by
  constructor
  · show (loadRows (pre ++ bad :: rest) []).1 = (loadRows pre []).1
    rw [loadRows_append hpre, loadRows_cons, hbad]
  · rw [loadRows_append hpre, loadRows_cons, hbad]

/-- Witness for C7 (amended): a 2-field row after one good row yields
exactly the table of the good row, ignoring a later good row. -/
theorem load_malformed_swallowed_witness :
    load_lookup_table (some [["destination_port", "protocol", "tag"],
        ["25", "tcp", "email"], ["81"], ["99", "udp", "dns"]])
      = load_lookup_table (some [["destination_port", "protocol", "tag"],
        ["25", "tcp", "email"]]) :=
  (load_malformed_swallowed ["destination_port", "protocol", "tag"]
    [["25", "tcp", "email"]] ["81"] [["99", "udp", "dns"]]
    (by decide) (by decide)).1
